import Mathlib

/-!
Verification of the resolution-and-registry subsystem of PyHyphen
(`hyphen/dictools.py`): the local dictionary registry (`Dictionaries`),
the descriptor fetcher/parser (`_download_dictionaries_xcu`,
`parse_dictionary_location`), the resolver (`find_dictionary_location`)
and the installer (`install`, `install_if_necessary`).

The Python code is shallowly embedded: the filesystem of the installation
directory and the registry file are explicit state (`Fs`), the network is
an explicit oracle (`Net`), exceptions become `Except PyError`, and each
operation additionally returns a trace of its externally visible effects
(`Effect`), so that ordering properties ("persist before delete",
"no network activity") can be stated.
-/

namespace PyHyphen

/-- Python exceptions that the embedded code can raise. -/
inductive PyError where
  /-- `KeyError` from `self.data[language]`. -/
  | keyError (key : String)
  /-- `IndexError` from `[0]` on an empty sequence. -/
  | indexError
  /-- `AttributeError` from calling a method on `None` (e.g. `None.split`). -/
  | attributeError
  /-- `IOError` raised by `find_dictionary_location`. -/
  | ioError (msg : String)
  /-- `TypeError` from unpacking a non-iterable (`dict_url, locales = None`). -/
  | typeError (msg : String)
  /-- `urllib.error.URLError` escaping from the content download in `install`. -/
  | urlError (url : String)
deriving DecidableEq, Repr

/-- Transport-level failures of a network `GET` (`urllib.error.URLError`
and its subclasses). -/
inductive TransportError where
  /-- unreachable host -/
  | unreachable
  /-- an HTTP error status such as 404 (`urllib.error.HTTPError`) -/
  | httpError (code : Nat)
  /-- timeout -/
  | timeout
deriving DecidableEq, Repr

/-- Bytes of a downloaded dictionary file. -/
abbrev Content := List Nat

/-- Python truthiness of a string: `""` is falsy. -/
def pyStrTruthy (s : String) : Bool := s ≠ ""

/-- Python `x or default` applied to an optional string
(`directory or DEFAULT_DICT_PATH`, `if not repos: repos = DEFAULT_REPOSITORY`). -/
def pyOrDefault (s : Option String) (dflt : String) : String :=
  match s with
  | some v => if v = "" then dflt else v
  | none => dflt

/-- `os.path.join(directory, filename)` for the single-directory model. -/
def pathJoin (directory filename : String) : String := directory ++ "/" ++ filename

/-- Whether the character list `needle` occurs as a contiguous sublist of the
second argument: the embedding of Python's `needle in haystack` on strings. -/
def hasSubList (needle : List Char) : List Char → Bool
  | [] => needle.isEmpty
  | c :: cs => needle.isPrefixOf (c :: cs) || hasSubList needle cs

/-- Python `needle in haystack` for strings. -/
def strContainsSub (haystack needle : String) : Bool :=
  hasSubList needle.data haystack.data

/-- Python `str.lower()` (kernel-reducible formulation). -/
def pyLower (s : String) : String := ⟨s.data.map Char.toLower⟩

/-- Python slicing `s[n:]`. -/
def strDrop (s : String) (n : Nat) : String := ⟨s.data.drop n⟩

/-- Python slicing `s[:n]`. -/
def strTake (s : String) (n : Nat) : String := ⟨s.data.take n⟩

/-- Python `str.replace(a, b)` for one-character patterns
(the source only uses `replace('-', '_')`). -/
def replaceChar (a b : Char) (s : String) : String :=
  ⟨s.data.map (fun c => if c = a then b else c)⟩

/-- Helper for `pySplitWs`: scan the characters, `acc` holding the current
token reversed. -/
def splitWsAux : List Char → List Char → List String
  | [], acc => if acc.isEmpty then [] else [(⟨acc.reverse⟩ : String)]
  | c :: cs, acc =>
    if c.isWhitespace then
      (if acc.isEmpty then [] else [(⟨acc.reverse⟩ : String)]) ++ splitWsAux cs []
    else
      splitWsAux cs (c :: acc)

/-- Python `str.split()` (no separator): split on runs of whitespace,
discarding empty pieces. -/
def pySplitWs (s : String) : List String := splitWsAux s.data []

/-- One value of the persisted registry mapping: the JSON object
`{"file": ..., "url": ...}` stored per locale by `Dictionaries.add`. -/
structure Entry where
  file : String
  url : String
deriving DecidableEq, Repr

/-- The parsed content of `dictionaries.json`: a Python `dict` as an
association list in insertion order, keys unique. -/
abbrev RegData := List (String × Entry)

/-- Python `d[k]` lookup (as an `Option`). -/
def assocLookup {β : Type} (d : List (String × β)) (k : String) : Option β :=
  match d.find? (fun kv => kv.1 = k) with
  | some kv => some kv.2
  | none => none

/-- Python `d[k] = v`: overwrite in place if the key exists, else append. -/
def assocSet {β : Type} (d : List (String × β)) (k : String) (v : β) : List (String × β) :=
  if d.any (fun kv => kv.1 = k) then
    d.map (fun kv => if kv.1 = k then (k, v) else kv)
  else
    d ++ [(k, v)]

/-- Python `d.pop(k)`. -/
def assocPop {β : Type} (d : List (String × β)) (k : String) : List (String × β) :=
  d.filter (fun kv => kv.1 ≠ k)

/-- An element of the `dictionaries.xcu` XML tree: tag, attribute pairs in
document order (`.items()`), text, and child elements (`.getchildren()`). -/
inductive XmlNode where
  | mk (tag : String) (attrs : List (String × String)) (text : Option String)
      (children : List XmlNode)

def XmlNode.tag : XmlNode → String
  | .mk t _ _ _ => t

def XmlNode.attrs : XmlNode → List (String × String)
  | .mk _ a _ _ => a

def XmlNode.text : XmlNode → Option String
  | .mk _ _ t _ => t

def XmlNode.children : XmlNode → List XmlNode
  | .mk _ _ _ c => c

mutual

/-- `ElementTree.iter(tag)`: the element itself (if its tag matches) followed
by matching descendants, in document (preorder) order. -/
def XmlNode.iterTag (t : String) : XmlNode → List XmlNode
  | .mk tag attrs text children =>
    (if tag = t then [XmlNode.mk tag attrs text children] else []) ++
      iterTagList t children

def iterTagList (t : String) : List XmlNode → List XmlNode
  | [] => []
  | c :: cs => XmlNode.iterTag t c ++ iterTagList t cs

end

/-- `any([name for name, value in node.items() if 'hyphdic' in value.lower()])`:
true iff some attribute's value contains `"hyphdic"` (case-insensitively) and
that attribute's *name* is truthy (non-empty), since `any` tests the names. -/
def nodeIsHyphen (node : XmlNode) : Bool :=
  node.attrs.any (fun nv => strContainsSub (pyLower nv.2) "hyphdic" && nv.1 ≠ "")

/-- The local record built per candidate node by `parse_dictionary_location`:
`locales = []` and `dict_location = None` before the property scan. -/
structure ParseAcc where
  locales : List String
  dict_location : Option String
deriving DecidableEq, Repr

/-- `prop.getchildren()[0].text.split()[0]`: first whitespace-separated token
of the first child's text; `IndexError` on no child or no token,
`AttributeError` when the text is `None`. -/
def locationsFromProp (prop : XmlNode) : Except PyError String :=
  match prop.children with
  | [] => .error .indexError
  | child :: _ =>
    match child.text with
    | none => .error .attributeError
    | some t =>
      match pySplitWs t with
      | [] => .error .indexError
      | w :: _ => .ok w

/-- `prop.getchildren()[0].text.replace('-', '_').split()`. -/
def localesFromProp (prop : XmlNode) : Except PyError (List String) :=
  match prop.children with
  | [] => .error .indexError
  | child :: _ =>
    match child.text with
    | none => .error .attributeError
    | some t => .ok (pySplitWs (replaceChar '-' '_' t))

/-- The body of the inner `for _pk, pv in prop.items()` loop. -/
def processAttr (prop : XmlNode) (acc : ParseAcc) (nv : String × String) :
    Except PyError ParseAcc :=
  if pyLower nv.2 = "locations" then
    match locationsFromProp prop with
    | .error e => .error e
    | .ok loc => .ok { acc with dict_location := some loc }
  else if pyLower nv.2 = "locales" then
    match localesFromProp prop with
    | .error e => .error e
    | .ok ls => .ok { acc with locales := ls }
  else
    .ok acc

/-- The inner loop over a property's attribute pairs. -/
def processAttrs (prop : XmlNode) (acc : ParseAcc) :
    List (String × String) → Except PyError ParseAcc
  | [] => .ok acc
  | nv :: rest =>
    match processAttr prop acc nv with
    | .error e => .error e
    | .ok acc2 => processAttrs prop acc2 rest

/-- The `for prop in node.getchildren()` loop. -/
def processProps (acc : ParseAcc) : List XmlNode → Except PyError ParseAcc
  | [] => .ok acc
  | p :: ps =>
    match processAttrs p acc p.attrs with
    | .error e => .error e
    | .ok acc2 => processProps acc2 ps

/-- Extraction of the candidate record of one hyphenation-tagged node. -/
def processNode (node : XmlNode) : Except PyError ParseAcc :=
  processProps { locales := [], dict_location := none } node.children

/-- The `for node in descr_tree.iter('node')` loop of
`parse_dictionary_location`. -/
def parseGo (origin_url language : String) :
    List XmlNode → Except PyError (Option String × List String)
  | [] => .ok (none, [])
  | node :: rest =>
    if nodeIsHyphen node then
      match processNode node with
      | .error e => .error e
      | .ok acc =>
        match acc.dict_location with
        | some loc =>
          if language ∈ acc.locales ∧ loc ≠ "" then
            .ok (some (origin_url ++ "/" ++ strDrop loc 9), acc.locales)
          else
            parseGo origin_url language rest
        | none => parseGo origin_url language rest
    else
      parseGo origin_url language rest

/-- `parse_dictionary_location(descr_file, origin_url, language)`. -/
def parse_dictionary_location (root : XmlNode) (origin_url language : String) :
    Except PyError (Option String × List String) :=
  parseGo origin_url language (root.iterTag "node")

/-- The network, as an oracle: `xcu url` is what `urllib.request.urlopen(url)`
followed by XML parsing yields for a descriptor URL, `blob url` the raw bytes
for a dictionary URL; `.error` is a raised `urllib.error.URLError`. -/
structure Net where
  xcu : String → Except TransportError XmlNode
  blob : String → Except TransportError Content

/-- Externally visible side effects, recorded in order of occurrence. -/
inductive Effect where
  /-- a `GET` of a descriptor (`dictionaries.xcu`) URL -/
  | netGetXcu (url : String)
  /-- a `GET` of a dictionary-content URL -/
  | netGetBlob (url : String)
  /-- a write of a dictionary file in the installation directory -/
  | writeFile (name : String)
  /-- a write of `dictionaries.json` with the given mapping (`save`) -/
  | saveReg (data : RegData)
  /-- `os.remove` of a dictionary file -/
  | deleteFile (name : String)
deriving DecidableEq, Repr

/-- A trace of effects. -/
abbrev Trace := List Effect

/-- Is an effect a content download? -/
def Effect.isBlobGet : Effect → Bool
  | .netGetBlob _ => true
  | _ => false

/-- Number of content downloads in a trace. -/
def countBlobGets (t : Trace) : Nat := t.countP (fun ef => ef.isBlobGet)

/-- The state of the installation directory: the parsed content of
`dictionaries.json` (`none` when the file does not exist) and the dictionary
files present, as `filename ↦ bytes`. -/
structure Fs where
  registry : Option RegData
  dicts : List (String × Content)
deriving DecidableEq, Repr

/-- `DEFAULT_REPOSITORY` from the source. -/
def DEFAULT_REPOSITORY : String :=
  "http://cgit.freedesktop.org/libreoffice/dictionaries/plain/"

/-- `DEFAULT_DICT_PATH = appdirs.user_data_dir("pyhyphen")`: the external
`appdirs` collaborator is out of scope, so the default directory is an
abstract constant. -/
def DEFAULT_DICT_PATH : String := "<user-data-dir>/pyhyphen"

/-- A `Dictionaries` object: its directory and the `_data` lazy cache. -/
structure Dictionaries where
  directory : String
  dataCache : Option RegData
deriving DecidableEq, Repr

/-- `Dictionaries.__init__`: `self.directory = directory or DEFAULT_DICT_PATH`,
`self._data = None`. -/
def Dictionaries.make (directory : Option String) : Dictionaries :=
  { directory := pyOrDefault directory DEFAULT_DICT_PATH, dataCache := none }

/-- The `data` property: lazily load `dictionaries.json` (missing file gives
`{}`); returns the possibly updated object together with the mapping. -/
def Dictionaries.getData (self : Dictionaries) (fs : Fs) : Dictionaries × RegData :=
  match self.dataCache with
  | some d => (self, d)
  | none =>
    match fs.registry with
    | some d => ({ self with dataCache := some d }, d)
    | none => ({ self with dataCache := some [] }, [])

/-- `installed_languages`: `sorted(self.data.keys())`. -/
def Dictionaries.installed_languages (self : Dictionaries) (fs : Fs) :
    Dictionaries × List String :=
  let sd := self.getData fs
  (sd.1, (sd.2.map (fun kv => kv.1)).mergeSort (fun a b => a ≤ b))

/-- `is_installed`: `language in self.data`. -/
def Dictionaries.is_installed (self : Dictionaries) (fs : Fs) (language : String) :
    Dictionaries × Bool :=
  let sd := self.getData fs
  (sd.1, (assocLookup sd.2 language).isSome)

/-- `filepath`: `os.path.join(self.directory, self.data[language]["file"])`;
a missing key raises `KeyError`. -/
def Dictionaries.filepath (self : Dictionaries) (fs : Fs) (language : String) :
    Dictionaries × Except PyError String :=
  let sd := self.getData fs
  match assocLookup sd.2 language with
  | none => (sd.1, .error (.keyError language))
  | some e => (sd.1, .ok (pathJoin sd.1.directory e.file))

/-- `Dictionaries.add`: write the content to `hyph_<language>.dic`, register
that file under every locale of `locales`, save, and return the file path. -/
def Dictionaries.add (self : Dictionaries) (fs : Fs) (language : String)
    (content : Content) (locales : List String) (url : String) :
    Dictionaries × Fs × String × Trace :=
  let filename := "hyph_" ++ language ++ ".dic"
  let filepath := pathJoin self.directory filename
  let fs1 : Fs := { fs with dicts := assocSet fs.dicts filename content }
  let sd := self.getData fs1
  let d := locales.foldl
    (fun d locale => assocSet d locale { file := filename, url := url }) sd.2
  ({ sd.1 with dataCache := some d }, { fs1 with registry := some d }, filepath,
   [.writeFile filename, .saveReg d])

/-- `Dictionaries.remove`: remove the language and all languages sharing its
file from the mapping, save, then delete the file if it exists. -/
def Dictionaries.remove (self : Dictionaries) (fs : Fs) (language : String) :
    Dictionaries × Fs × Trace :=
  let sd := self.getData fs
  match assocLookup sd.2 language with
  | none => (sd.1, fs, [])
  | some props =>
    let filename := props.file
    let languages :=
      (sd.2.filter (fun kv => kv.2.file = filename)).map (fun kv => kv.1)
    let d := languages.foldl (fun d locale => assocPop d locale) sd.2
    let self2 : Dictionaries := { sd.1 with dataCache := some d }
    let fs2 : Fs := { fs with registry := some d }
    if fs2.dicts.any (fun kv => kv.1 = filename) then
      (self2, { fs2 with dicts := fs2.dicts.filter (fun kv => kv.1 ≠ filename) },
       [.saveReg d, .deleteFile filename])
    else
      (self2, fs2, [.saveReg d])

/-- `_download_dictionaries_xcu(origin_url)`: append `"/dictionaries.xcu"`,
`GET` it, and swallow any `urllib.error.URLError` into `None`. -/
def download_dictionaries_xcu (net : Net) (origin_url : String) :
    Option XmlNode × Trace :=
  let url := origin_url ++ "/dictionaries.xcu"
  match net.xcu url with
  | .ok doc => (some doc, [.netGetXcu url])
  | .error _ => (none, [.netGetXcu url])

/-- The value returned by `find_dictionary_location`: either the bare `None`
of line 186 (no descriptor document obtainable) or the `(dict_url, locales)`
pair. -/
inductive FdlResult where
  | noMetadata
  | found (url : String) (locales : List String)
deriving DecidableEq, Repr

/-- `find_dictionary_location(repos, language)`: two-stage descriptor lookup
(full code, then 2-character base), parse against the original language,
raise `IOError` when a document was found but matched no record. -/
def find_dictionary_location (net : Net) (repos language : String) :
    Except PyError FdlResult × Trace :=
  let origin_url := repos ++ language
  let (descr_file, t1) := download_dictionaries_xcu net origin_url
  let (origin_url, descr_file, trace) :=
    if descr_file.isNone ∧ 2 < language.length then
      let origin2 := repos ++ strTake language 2
      let (d2, t2) := download_dictionaries_xcu net origin2
      (origin2, d2, t1 ++ t2)
    else
      (origin_url, descr_file, t1)
  match descr_file with
  | none => (.ok .noMetadata, trace)
  | some doc =>
    match parse_dictionary_location doc origin_url language with
    | .error e => (.error e, trace)
    | .ok (none, _) =>
      (.error (.ioError ("Cannot find hyphenation dictionary for language " ++
        language ++ ".")), trace)
    | .ok (some u, locales) => (.ok (.found u locales), trace)

/-- The tail of `install` after the dictionary URL and locale list are
settled: `urllib.request.urlopen(dict_url).read()` followed by
`Dictionaries(directory).add(...)`; a raised `URLError` propagates. -/
def installDownload (net : Net) (fs : Fs) (language : String)
    (directory : Option String) (dict_url : String) (locales : List String)
    (t : Trace) : Except PyError (Fs × String) × Trace :=
  match net.blob dict_url with
  | .error _ => (.error (.urlError dict_url), t ++ [.netGetBlob dict_url])
  | .ok content =>
    let r := (Dictionaries.make directory).add fs language content locales dict_url
    (.ok (r.2.1, r.2.2.1), t ++ [.netGetBlob dict_url] ++ r.2.2.2)

/-- `install(language, directory, repos, use_description)`. The Python
statement `dict_url, locales = find_dictionary_location(repos, language)`
raises `TypeError` when the callee returns the bare `None` of its
no-metadata branch, since `None` cannot be unpacked into a pair; the
`if not dict_url:` guess fallback is therefore reached only when
`use_description` is false (or when the resolved URL is the empty string,
which cannot happen). -/
def install (net : Net) (fs : Fs) (language : String) (directory : Option String)
    (repos : Option String) (use_description : Bool) :
    Except PyError (Fs × String) × Trace :=
  let repos := pyOrDefault repos DEFAULT_REPOSITORY
  if use_description then
    match find_dictionary_location net repos language with
    | (.error e, t) => (.error e, t)
    | (.ok .noMetadata, t) =>
      (.error (.typeError "cannot unpack non-iterable NoneType object"), t)
    | (.ok (.found u locales), t) =>
      if pyStrTruthy u then
        installDownload net fs language directory u locales t
      else
        installDownload net fs language directory
          (repos ++ "hyph_dict_" ++ language ++ ".dic") [language] t
  else
    installDownload net fs language directory
      (repos ++ "hyph_dict_" ++ language ++ ".dic") [language] []

/-- `install_if_necessary(language, directory)`. -/
def install_if_necessary (net : Net) (fs : Fs) (language : String)
    (directory : Option String) : Except PyError (Fs × String) × Trace :=
  let di := (Dictionaries.make directory).is_installed fs language
  if di.2 then
    match (di.1.filepath fs language).2 with
    | .error e => (.error e, [])
    | .ok p => (.ok (fs, p), [])
  else
    match install net fs language directory none true with
    | (.error e, t) => (.error e, t)
    | (.ok (fs2, _), t) =>
      match (({ di.1 with dataCache := none } : Dictionaries).filepath fs2 language).2 with
      | .error e => (.error e, t)
      | .ok p => (.ok (fs2, p), t)

/-- `list_installed(directory)`. -/
def list_installed (fs : Fs) (directory : Option String) : List String :=
  ((Dictionaries.make directory).installed_languages fs).2

/-- Module-level `is_installed(language, directory)`. -/
def is_installed_mod (fs : Fs) (language : String) (directory : Option String) : Bool :=
  ((Dictionaries.make directory).is_installed fs language).2

/-- `uninstall(language, directory)`. -/
def uninstall (fs : Fs) (language : String) (directory : Option String) :
    Fs × Trace :=
  let r := (Dictionaries.make directory).remove fs language
  (r.2.1, r.2.2)

/-!
## Specification-side parser (for the refinement claim C4)

The following definitions follow the words of the spec (§4.3) and of claim
C4, not the code: the parser returns, for the *first* record in document
order that both has a location string and whose locale list (tokens
whitespace-split, `-` normalized to `_`) contains the requested language,
the pair `(origin_url + "/" + location-with-9-char-prefix-stripped,
that record locale list)`, using only the first whitespace-separated
location token; `(None, [])` when no record matches.  Property extraction
keeps the most recently assigned value (last-property-wins, §4.3 edge case
and §9), and skips rather than faults on malformed properties — the
comparison theorem for C4 relates it to the fallible source parser. -/

/-- Spec-side property-attribute step: total version of `processAttr`. -/
def specAttr (prop : XmlNode) (acc : ParseAcc) (nv : String × String) : ParseAcc :=
  if pyLower nv.2 = "locations" then
    match locationsFromProp prop with
    | .error _ => acc
    | .ok loc => { acc with dict_location := some loc }
  else if pyLower nv.2 = "locales" then
    match localesFromProp prop with
    | .error _ => acc
    | .ok ls => { acc with locales := ls }
  else
    acc

/-- Spec-side scan of one property. -/
def specAttrsList (prop : XmlNode) (acc : ParseAcc) :
    List (String × String) → ParseAcc
  | [] => acc
  | nv :: rest => specAttrsList prop (specAttr prop acc nv) rest

/-- Spec-side scan of the properties of a record. -/
def specPropsList (acc : ParseAcc) : List XmlNode → ParseAcc
  | [] => acc
  | p :: ps => specPropsList (specAttrsList p acc p.attrs) ps

/-- The locale list and location of a candidate record, per the spec. -/
def recordOfNode (node : XmlNode) : ParseAcc :=
  specPropsList { locales := [], dict_location := none } node.children

/-- Spec-side first-match scan over the candidate records. -/
def parseSpecGo (origin_url language : String) :
    List XmlNode → Option String × List String
  | [] => (none, [])
  | node :: rest =>
    if nodeIsHyphen node then
      match (recordOfNode node).dict_location with
      | some loc =>
        if language ∈ (recordOfNode node).locales then
          (some (origin_url ++ "/" ++ strDrop loc 9), (recordOfNode node).locales)
        else
          parseSpecGo origin_url language rest
      | none => parseSpecGo origin_url language rest
    else
      parseSpecGo origin_url language rest

/-- The parser as described by claim C4 and §4.3 of the spec. -/
def parseSpecC4 (root : XmlNode) (origin_url language : String) :
    Option String × List String :=
  parseSpecGo origin_url language (root.iterTag "node")

/-- The invariant that any recorded location is a non-empty token. -/
def accLocOk (acc : ParseAcc) : Prop :=
  ∀ loc, acc.dict_location = some loc → loc ≠ ""

/-!
## Concrete sample data used by witnesses and counterexamples
-/

/-- An empty installation directory. -/
def fsEmpty : Fs := { registry := none, dicts := [] }

/-- A well-formed sample descriptor: one hyphenation record, locations text
with two tokens, locales text with hyphenated locale codes. -/
def sampleRoot : XmlNode :=
  .mk "root" [] none
    [.mk "node" [("oor:name", "HyphDic_en")] none
      [.mk "prop" [("oor:name", "Locations")] none
        [.mk "value" [] (some "%origin%/hyph_en_US.dic %origin%/alt.dic") []],
       .mk "prop" [("oor:name", "Locales")] none
        [.mk "value" [] (some "en-US en-GB") []]]]

/-- A descriptor with a hyphenation record that serves only `pt`, not
`pt_BR`. -/
def sampleRootPt : XmlNode :=
  .mk "root" [] none
    [.mk "node" [("oor:name", "HyphDic_pt")] none
      [.mk "prop" [("oor:name", "Locations")] none
        [.mk "value" [] (some "%origin%/hyph_pt_PT.dic") []],
       .mk "prop" [("oor:name", "Locales")] none
        [.mk "value" [] (some "pt-PT") []]]]

/-- A malformed descriptor: the hyphenation record has a `Locations`
property whose child element has no text. -/
def sampleRootBad : XmlNode :=
  .mk "root" [] none
    [.mk "node" [("oor:name", "HyphDic_xx")] none
      [.mk "prop" [("oor:name", "Locations")] none
        [.mk "value" [] none []]]]

/-- A record carrying two `Locales` properties: an early one and a later
one; last wins. -/
def sampleMultiNode : XmlNode :=
  .mk "node" [("oor:name", "HyphDic_en")] none
    [.mk "prop" [("oor:name", "Locales")] none
      [.mk "value" [] (some "xx-YY") []],
     .mk "prop" [("oor:name", "Locations")] none
      [.mk "value" [] (some "%origin%/hyph_en_US.dic") []],
     .mk "prop" [("oor:name", "Locales")] none
      [.mk "value" [] (some "en-US en-GB") []]]

/-- A network on which every request fails. -/
def netOffline : Net :=
  { xcu := fun _ => .error .unreachable, blob := fun _ => .error .unreachable }

/-- A network on which descriptor fetches fail but every content `GET`
succeeds (so the guessed URL would be downloadable). -/
def netNoMeta : Net :=
  { xcu := fun _ => .error (.httpError 404), blob := fun _ => .ok [7, 7] }

/-- A network serving no descriptor for `pt_BR` but a `pt` descriptor with
no record matching `pt_BR`. -/
def netPt : Net :=
  { xcu := fun url =>
      if url = "http://repo/pt/dictionaries.xcu" then .ok sampleRootPt
      else .error (.httpError 404),
    blob := fun _ => .error .unreachable }

/-- A network serving the sample descriptor for the full `en_US` code. -/
def netEn : Net :=
  { xcu := fun url =>
      if url = "http://repo/en_US/dictionaries.xcu" then .ok sampleRoot
      else .error (.httpError 404),
    blob := fun url =>
      if url = "http://repo/en_US/hyph_en_US.dic" then .ok [1, 2, 3]
      else .error .unreachable }

/-- A network serving the sample descriptor and its dictionary content at
the default repository, so that a full `install_if_necessary` run succeeds. -/
def netC6 : Net :=
  { xcu := fun url =>
      if url = DEFAULT_REPOSITORY ++ "en_US" ++ "/dictionaries.xcu" then
        .ok sampleRoot
      else .error (.httpError 404),
    blob := fun url =>
      if url = DEFAULT_REPOSITORY ++ "en_US" ++ "/hyph_en_US.dic" then
        .ok [1, 2, 3]
      else .error .unreachable }

/-- The registry resulting from a successful `install` of `en_US` via the
`netC6` descriptor (both declared locales bound to one file). -/
def regC6 : RegData :=
  [("en_US", { file := "hyph_en_US.dic",
               url := DEFAULT_REPOSITORY ++ "en_US" ++ "/hyph_en_US.dic" }),
   ("en_GB", { file := "hyph_en_US.dic",
               url := DEFAULT_REPOSITORY ++ "en_US" ++ "/hyph_en_US.dic" })]

/-- The directory state after that install. -/
def fsC6 : Fs :=
  { registry := some regC6, dicts := [("hyph_en_US.dic", [1, 2, 3])] }

/-- The effect trace of that install. -/
def traceC6 : Trace :=
  [.netGetXcu (DEFAULT_REPOSITORY ++ "en_US" ++ "/dictionaries.xcu"),
   .netGetBlob (DEFAULT_REPOSITORY ++ "en_US" ++ "/hyph_en_US.dic"),
   .writeFile "hyph_en_US.dic",
   .saveReg regC6]

/-- The directory state after a guess-path install of `en_US` over
`netNoMeta` with `use_description=false`. -/
def fsC9 : Fs :=
  { registry := some [("en_US",
      { file := "hyph_en_US.dic",
        url := DEFAULT_REPOSITORY ++ "hyph_dict_" ++ "en_US" ++ ".dic" })],
    dicts := [("hyph_en_US.dic", [7, 7])] }

/-- The effect trace of that guess-path install. -/
def traceC9 : Trace :=
  [.netGetBlob (DEFAULT_REPOSITORY ++ "hyph_dict_" ++ "en_US" ++ ".dic"),
   .writeFile "hyph_en_US.dic",
   .saveReg [("en_US",
     { file := "hyph_en_US.dic",
       url := DEFAULT_REPOSITORY ++ "hyph_dict_" ++ "en_US" ++ ".dic" })]]

/-- The registry of the shared-file example of §8 of the spec, plus an
unrelated locale. -/
def regShared : RegData :=
  [("en_US", { file := "hyph_en_US.dic", url := "u" }),
   ("en_GB", { file := "hyph_en_US.dic", url := "u" }),
   ("fr_FR", { file := "hyph_fr_FR.dic", url := "v" })]

/-- The directory state going with `regShared`. -/
def fsShared : Fs :=
  { registry := some regShared,
    dicts := [("hyph_en_US.dic", [1]), ("hyph_fr_FR.dic", [2])] }

instance {ε α : Type} [DecidableEq ε] [DecidableEq α] : DecidableEq (Except ε α) :=
  fun a b =>
    match a, b with
    | .ok x, .ok y =>
      if h : x = y then .isTrue (by rw [h])
      else .isFalse (fun hh => h (Except.ok.inj hh))
    | .error x, .error y =>
      if h : x = y then .isTrue (by rw [h])
      else .isFalse (fun hh => h (Except.error.inj hh))
    | .ok _, .error _ => .isFalse (fun hh => Except.noConfusion hh)
    | .error _, .ok _ => .isFalse (fun hh => Except.noConfusion hh)

/-!
## Helper lemmas
-/

theorem getData_fresh (dir : String) (fs : Fs) :
    (Dictionaries.mk dir none).getData fs =
      (Dictionaries.mk dir (some (fs.registry.getD [])), fs.registry.getD []) := by
  cases h : fs.registry <;> simp [Dictionaries.getData, h]

theorem getData_cached (dir : String) (d : RegData) (fs : Fs) :
    (Dictionaries.mk dir (some d)).getData fs = (Dictionaries.mk dir (some d), d) :=
  rfl

theorem make_eq (directory : Option String) :
    Dictionaries.make directory =
      Dictionaries.mk (pyOrDefault directory DEFAULT_DICT_PATH) none := rfl

theorem splitWsAux_mem_ne (cs : List Char) : ∀ (acc : List Char) (w : String),
    w ∈ splitWsAux cs acc → w ≠ "" := by
  induction cs with
  | nil =>
    intro acc w hw
    by_cases h : acc.isEmpty
    · simp [splitWsAux, h] at hw
    · simp [splitWsAux, h] at hw
      subst hw
      intro hc
      have hdata : acc.reverse = [] := congrArg String.data hc
      have hacc : acc = [] := by simpa using hdata
      rw [hacc] at h
      simp at h
  | cons c cs ih =>
    intro acc w hw
    by_cases hws : c.isWhitespace
    · simp only [splitWsAux, hws, if_true, List.mem_append] at hw
      rcases hw with hw | hw
      · by_cases h : acc.isEmpty
        · simp [h] at hw
        · simp [h] at hw
          subst hw
          intro hc
          have hdata : acc.reverse = [] := congrArg String.data hc
          have hacc : acc = [] := by simpa using hdata
          rw [hacc] at h
          simp at h
      · exact ih [] w hw
    · simp only [splitWsAux, hws, if_false, Bool.false_eq_true] at hw
      exact ih (c :: acc) w hw

theorem pySplitWs_mem_ne (s : String) (w : String) (hw : w ∈ pySplitWs s) :
    w ≠ "" :=
  splitWsAux_mem_ne s.data [] w hw

theorem locationsFromProp_ok_ne (prop : XmlNode) (w : String)
    (h : locationsFromProp prop = .ok w) : w ≠ "" := by
  obtain ⟨ptag, pattrs, ptext, pchildren⟩ := prop
  cases pchildren with
  | nil => simp [locationsFromProp, XmlNode.children] at h
  | cons child rest =>
    obtain ⟨ctag, cattrs, ctext, cchildren⟩ := child
    cases ctext with
    | none => simp [locationsFromProp, XmlNode.children, XmlNode.text] at h
    | some t =>
      cases hs : pySplitWs t with
      | nil => simp [locationsFromProp, XmlNode.children, XmlNode.text, hs] at h
      | cons w0 ws =>
        simp only [locationsFromProp, XmlNode.children, XmlNode.text, hs,
          Except.ok.injEq] at h
        subst h
        exact pySplitWs_mem_ne t w0 (by rw [hs]; exact List.mem_cons_self _ _)

theorem processAttr_ok_spec (prop : XmlNode) (acc acc2 : ParseAcc)
    (nv : String × String) (h : processAttr prop acc nv = .ok acc2) :
    specAttr prop acc nv = acc2 := by
  unfold processAttr at h
  unfold specAttr
  by_cases h1 : pyLower nv.2 = "locations"
  · simp only [h1, if_true] at h ⊢
    cases hl : locationsFromProp prop with
    | error e => rw [hl] at h; simp at h
    | ok loc => rw [hl] at h; simpa using h
  · by_cases h2 : pyLower nv.2 = "locales"
    · simp only [h1, h2, if_true, if_false] at h ⊢
      cases hl : localesFromProp prop with
      | error e => rw [hl] at h; simp at h
      | ok ls => rw [hl] at h; simpa using h
    · simp only [h1, h2, if_false] at h ⊢
      simpa using h

theorem processAttr_inv (prop : XmlNode) (acc acc2 : ParseAcc)
    (nv : String × String) (hP : accLocOk acc)
    (h : processAttr prop acc nv = .ok acc2) : accLocOk acc2 := by
  unfold processAttr at h
  by_cases h1 : pyLower nv.2 = "locations"
  · rw [if_pos h1] at h
    cases hl : locationsFromProp prop with
    | error e => rw [hl] at h; simp at h
    | ok loc =>
      rw [hl] at h
      simp only [Except.ok.injEq] at h
      subst h
      intro loc' hl'
      simp only at hl'
      cases hl'
      exact locationsFromProp_ok_ne prop loc hl
  · rw [if_neg h1] at h
    by_cases h2 : pyLower nv.2 = "locales"
    · rw [if_pos h2] at h
      cases hl : localesFromProp prop with
      | error e => rw [hl] at h; simp at h
      | ok ls =>
        rw [hl] at h
        simp only [Except.ok.injEq] at h
        subst h
        intro loc' hl'
        exact hP loc' hl'
    · rw [if_neg h2] at h
      simp only [Except.ok.injEq] at h
      subst h
      exact hP

theorem processAttrs_ok_spec (prop : XmlNode) :
    ∀ (l : List (String × String)) (acc acc2 : ParseAcc),
      processAttrs prop acc l = .ok acc2 → specAttrsList prop acc l = acc2 := by
  intro l
  induction l with
  | nil =>
    intro acc acc2 h
    simp only [processAttrs, Except.ok.injEq] at h
    simpa [specAttrsList] using h
  | cons nv rest ih =>
    intro acc acc2 h
    unfold processAttrs at h
    cases ha : processAttr prop acc nv with
    | error e => rw [ha] at h; simp at h
    | ok acc1 =>
      rw [ha] at h
      unfold specAttrsList
      rw [processAttr_ok_spec prop acc acc1 nv ha]
      exact ih acc1 acc2 h

theorem processAttrs_inv (prop : XmlNode) :
    ∀ (l : List (String × String)) (acc acc2 : ParseAcc),
      accLocOk acc → processAttrs prop acc l = .ok acc2 → accLocOk acc2 := by
  intro l
  induction l with
  | nil =>
    intro acc acc2 hP h
    simp only [processAttrs, Except.ok.injEq] at h
    subst h; exact hP
  | cons nv rest ih =>
    intro acc acc2 hP h
    unfold processAttrs at h
    cases ha : processAttr prop acc nv with
    | error e => rw [ha] at h; simp at h
    | ok acc1 =>
      rw [ha] at h
      exact ih acc1 acc2 (processAttr_inv prop acc acc1 nv hP ha) h

theorem processProps_ok_spec :
    ∀ (l : List XmlNode) (acc acc2 : ParseAcc),
      processProps acc l = .ok acc2 → specPropsList acc l = acc2 := by
  intro l
  induction l with
  | nil =>
    intro acc acc2 h
    simp only [processProps, Except.ok.injEq] at h
    simpa [specPropsList] using h
  | cons p ps ih =>
    intro acc acc2 h
    unfold processProps at h
    cases ha : processAttrs p acc p.attrs with
    | error e => rw [ha] at h; simp at h
    | ok acc1 =>
      rw [ha] at h
      unfold specPropsList
      rw [processAttrs_ok_spec p p.attrs acc acc1 ha]
      exact ih acc1 acc2 h

theorem processProps_inv :
    ∀ (l : List XmlNode) (acc acc2 : ParseAcc),
      accLocOk acc → processProps acc l = .ok acc2 → accLocOk acc2 := by
  intro l
  induction l with
  | nil =>
    intro acc acc2 hP h
    simp only [processProps, Except.ok.injEq] at h
    subst h; exact hP
  | cons p ps ih =>
    intro acc acc2 hP h
    unfold processProps at h
    cases ha : processAttrs p acc p.attrs with
    | error e => rw [ha] at h; simp at h
    | ok acc1 =>
      rw [ha] at h
      exact ih acc1 acc2 (processAttrs_inv p p.attrs acc acc1 hP ha) h

theorem processNode_ok_spec (node : XmlNode) (acc : ParseAcc)
    (h : processNode node = .ok acc) : recordOfNode node = acc :=
  processProps_ok_spec node.children _ acc h

theorem processNode_inv (node : XmlNode) (acc : ParseAcc)
    (h : processNode node = .ok acc) : accLocOk acc :=
  processProps_inv node.children _ acc (fun loc hl => by simp at hl) h

theorem parseGo_ok_spec (origin_url language : String) :
    ∀ (ns : List XmlNode) (r : Option String × List String),
      parseGo origin_url language ns = .ok r →
      parseSpecGo origin_url language ns = r := by
  intro ns
  induction ns with
  | nil =>
    intro r h
    simp only [parseGo, Except.ok.injEq] at h
    simpa [parseSpecGo] using h
  | cons node rest ih =>
    intro r h
    by_cases hh : nodeIsHyphen node
    · cases hn : processNode node with
      | error e =>
        simp only [parseGo, hh, if_true, hn] at h
        exact absurd h (by simp)
      | ok acc =>
        have hrec := processNode_ok_spec node acc hn
        cases hd : acc.dict_location with
        | none =>
          simp only [parseGo, hh, if_true, hn, hd] at h
          simp only [parseSpecGo, hh, if_true, hrec, hd]
          exact ih r h
        | some loc =>
          have hne : loc ≠ "" := processNode_inv node acc hn loc hd
          simp only [parseGo, hh, if_true, hn, hd] at h
          simp only [parseSpecGo, hh, if_true, hrec, hd]
          by_cases hm : language ∈ acc.locales
          · rw [if_pos ⟨hm, hne⟩] at h
            rw [if_pos hm]
            simpa using h
          · rw [if_neg (fun hc => hm hc.1)] at h
            rw [if_neg hm]
            exact ih r h
    · simp only [parseGo, hh, if_false, Bool.false_eq_true] at h
      simp only [parseSpecGo, hh, if_false, Bool.false_eq_true]
      exact ih r h

theorem assocLookup_cons {β : Type} (kv : String × β) (d : List (String × β))
    (k : String) :
    assocLookup (kv :: d) k = if kv.1 = k then some kv.2 else assocLookup d k := by
  by_cases h : kv.1 = k <;> simp [assocLookup, List.find?_cons, h]

theorem assocLookup_append_single {β : Type} (d : List (String × β))
    (k k' : String) (v : β) :
    assocLookup (d ++ [(k, v)]) k' =
      if k = k' then (assocLookup d k').getD v |> some else assocLookup d k' := by
  by_cases hk : k = k'
  · rw [if_pos hk]
    unfold assocLookup
    rw [List.find?_append]
    cases hf : d.find? (fun kv => kv.1 = k') with
    | none => simp [Option.or, List.find?, hk]
    | some kv => simp [Option.or, hf]
  · rw [if_neg hk]
    unfold assocLookup
    rw [List.find?_append]
    have : List.find? (fun kv => kv.1 = k') [(k, v)] = none := by
      simp [List.find?, hk]
    rw [this]
    cases hf : d.find? (fun kv => kv.1 = k') <;> simp [Option.or, hf]

theorem assocLookup_map_set_self {β : Type} (k : String) (v : β) :
    ∀ d : List (String × β), d.any (fun x => x.1 = k) = true →
      assocLookup (d.map (fun x => if x.1 = k then (k, v) else x)) k = some v := by
  intro d
  induction d with
  | nil => intro h; simp at h
  | cons kv d ih =>
    intro hany
    by_cases hk : kv.1 = k
    · simp only [List.map_cons, if_pos hk]
      simp [assocLookup_cons]
    · simp only [List.any_cons] at hany
      have hd : d.any (fun x => x.1 = k) = true := by
        rcases Bool.or_eq_true_iff.mp hany with h1 | h1
        · exact absurd (of_decide_eq_true h1) hk
        · exact h1
      simp only [List.map_cons, if_neg hk]
      rw [assocLookup_cons, if_neg hk]
      exact ih hd

theorem assocLookup_map_set_other {β : Type} (k k' : String) (v : β)
    (hne : k' ≠ k) :
    ∀ d : List (String × β),
      assocLookup (d.map (fun x => if x.1 = k then (k, v) else x)) k' =
        assocLookup d k' := by
  intro d
  induction d with
  | nil => rfl
  | cons kv d ih =>
    by_cases hk : kv.1 = k
    · simp only [List.map_cons, if_pos hk]
      rw [assocLookup_cons, assocLookup_cons]
      rw [if_neg (fun h => hne h.symm), if_neg (fun h => hne (hk ▸ h).symm)]
      exact ih
    · simp only [List.map_cons, if_neg hk]
      rw [assocLookup_cons, assocLookup_cons]
      exact if_congr Iff.rfl rfl ih

theorem assocLookup_set_self {β : Type} (k : String) (v : β)
    (d : List (String × β)) : assocLookup (assocSet d k v) k = some v := by
  unfold assocSet
  cases hany : d.any (fun x => x.1 = k) with
  | true =>
    simp only [if_true]
    exact assocLookup_map_set_self k v d hany
  | false =>
    simp only [if_false, Bool.false_eq_true]
    rw [assocLookup_append_single, if_pos rfl]
    have : assocLookup d k = none := by
      unfold assocLookup
      rw [List.find?_eq_none.mpr]
      intro x hx
      simp only [decide_eq_true_eq]
      exact fun hc => by
        rw [List.any_eq_false] at hany
        exact absurd (by simpa using hc) (by simpa using hany x hx)
    simp [this]

theorem assocLookup_set_other {β : Type} (k k' : String) (v : β) (hne : k' ≠ k)
    (d : List (String × β)) : assocLookup (assocSet d k v) k' = assocLookup d k' := by
  unfold assocSet
  cases hany : d.any (fun x => x.1 = k) with
  | true =>
    simp only [if_true]
    exact assocLookup_map_set_other k k' v hne d
  | false =>
    simp only [if_false, Bool.false_eq_true]
    rw [assocLookup_append_single, if_neg (fun h => hne h.symm)]

theorem assocLookup_foldl_set_not_mem {β : Type} (v : β) (k : String) :
    ∀ (L : List String) (d : List (String × β)), k ∉ L →
      assocLookup (L.foldl (fun d l => assocSet d l v) d) k = assocLookup d k := by
  intro L
  induction L with
  | nil => intro d _; rfl
  | cons l L ih =>
    intro d hk
    simp only [List.foldl_cons]
    rw [ih (assocSet d l v) (fun h => hk (List.mem_cons_of_mem l h))]
    exact assocLookup_set_other l k v (fun h => hk (h ▸ List.mem_cons_self l L)) d

theorem assocLookup_foldl_set_mem {β : Type} (v : β) (k : String) :
    ∀ (L : List String) (d : List (String × β)), k ∈ L →
      assocLookup (L.foldl (fun d l => assocSet d l v) d) k = some v := by
  intro L
  induction L with
  | nil => intro d h; simp at h
  | cons l L ih =>
    intro d hk
    simp only [List.foldl_cons]
    by_cases hmem : k ∈ L
    · exact ih (assocSet d l v) hmem
    · have hkl : k = l := by
        rcases List.mem_cons.mp hk with h | h
        · exact h
        · exact absurd h hmem
      rw [assocLookup_foldl_set_not_mem v k L (assocSet d l v) hmem]
      rw [hkl]
      exact assocLookup_set_self l v d

theorem assocLookup_some_mem {β : Type} (d : List (String × β)) (k : String)
    (v : β) (h : assocLookup d k = some v) : (k, v) ∈ d := by
  unfold assocLookup at h
  cases hf : d.find? (fun kv => kv.1 = k) with
  | none => rw [hf] at h; simp at h
  | some kv =>
    rw [hf] at h
    simp only [Option.some.injEq] at h
    have hmem := List.mem_of_find?_eq_some hf
    have hpred := List.find?_some hf
    simp only [decide_eq_true_eq] at hpred
    have : kv = (k, v) := by
      cases kv
      simp only at hpred h
      simp [hpred, h]
    exact this ▸ hmem

theorem assocLookup_none_iff {β : Type} (d : List (String × β)) (k : String) :
    assocLookup d k = none ↔ ∀ kv ∈ d, kv.1 ≠ k := by
  unfold assocLookup
  cases hf : d.find? (fun kv => kv.1 = k) with
  | none =>
    simp only [true_iff]
    rw [List.find?_eq_none] at hf
    exact fun kv hkv => by simpa using hf kv hkv
  | some kv =>
    constructor
    · intro h
      exact absurd h (by simp)
    · intro hall
      have hmem := List.mem_of_find?_eq_some hf
      have hpred := List.find?_some hf
      simp only [decide_eq_true_eq] at hpred
      exact absurd hpred (hall kv hmem)

theorem foldl_pop_eq_filter {β : Type} :
    ∀ (L : List String) (d : List (String × β)),
      L.foldl (fun d l => assocPop d l) d =
        d.filter (fun kv => decide (kv.1 ∉ L)) := by
  intro L
  induction L with
  | nil =>
    intro d
    simp only [List.foldl_nil]
    exact (List.filter_eq_self.mpr (fun a _ => by simp)).symm
  | cons l L ih =>
    intro d
    simp only [List.foldl_cons]
    rw [ih (assocPop d l)]
    unfold assocPop
    rw [List.filter_filter]
    apply List.filter_congr
    intro kv _
    by_cases h1 : kv.1 = l <;> by_cases h2 : kv.1 ∈ L <;>
      simp [h1, h2, List.mem_cons]

theorem pop_languages_eq_filter (d : RegData) (f : String)
    (hnd : (d.map Prod.fst).Nodup) :
    (((d.filter (fun kv => kv.2.file = f)).map (fun kv => kv.1)).foldl
        (fun d l => assocPop d l) d) =
      d.filter (fun kv => kv.2.file ≠ f) := by
  rw [foldl_pop_eq_filter]
  apply List.filter_congr
  intro kv hkv
  by_cases hf : kv.2.file = f
  · have hmem : kv.1 ∈ (d.filter (fun kv => kv.2.file = f)).map (fun kv => kv.1) :=
      List.mem_map.mpr ⟨kv, List.mem_filter.mpr ⟨hkv, by simp [hf]⟩, rfl⟩
    simp [hmem, hf]
  · have hnmem : kv.1 ∉ (d.filter (fun kv => kv.2.file = f)).map (fun kv => kv.1) := by
      intro hmem
      rcases List.mem_map.mp hmem with ⟨kv2, hkv2, hEq⟩
      have hkv2d := (List.mem_filter.mp hkv2).1
      have hkv2f : kv2.2.file = f := by
        have := (List.mem_filter.mp hkv2).2
        simpa using this
      have heq2 : kv2 = kv := List.inj_on_of_nodup_map hnd hkv2d hkv hEq
      exact hf (heq2 ▸ hkv2f)
    simp [hnmem, hf]

theorem parseGo_found_mem (origin_url language : String) :
    ∀ (ns : List XmlNode) (u : String) (ls : List String),
      parseGo origin_url language ns = .ok (some u, ls) → language ∈ ls := by
  intro ns
  induction ns with
  | nil => intro u ls h; simp [parseGo] at h
  | cons node rest ih =>
    intro u ls h
    by_cases hh : nodeIsHyphen node
    · cases hn : processNode node with
      | error e =>
        simp only [parseGo, hh, if_true, hn] at h
        exact absurd h (by simp)
      | ok acc =>
        cases hd : acc.dict_location with
        | none =>
          simp only [parseGo, hh, if_true, hn, hd] at h
          exact ih u ls h
        | some loc =>
          simp only [parseGo, hh, if_true, hn, hd] at h
          by_cases hc : language ∈ acc.locales ∧ loc ≠ ""
          · rw [if_pos hc] at h
            simp only [Except.ok.injEq, Prod.mk.injEq] at h
            exact h.2 ▸ hc.1
          · rw [if_neg hc] at h
            exact ih u ls h
    · simp only [parseGo, hh, if_false, Bool.false_eq_true] at h
      exact ih u ls h

theorem parse_found_mem (root : XmlNode) (origin_url language u : String)
    (ls : List String)
    (h : parse_dictionary_location root origin_url language = .ok (some u, ls)) :
    language ∈ ls :=
  parseGo_found_mem origin_url language (root.iterTag "node") u ls h

theorem fdl_eq_stage1_doc (net : Net) (repos language : String) (doc : XmlNode)
    (h1 : net.xcu (repos ++ language ++ "/dictionaries.xcu") = .ok doc) :
    find_dictionary_location net repos language =
      ((match parse_dictionary_location doc (repos ++ language) language with
        | .error e => .error e
        | .ok (none, _) =>
          .error (.ioError ("Cannot find hyphenation dictionary for language " ++
            language ++ "."))
        | .ok (some u, ls) => .ok (.found u ls)),
       [.netGetXcu (repos ++ language ++ "/dictionaries.xcu")]) := by
  simp only [find_dictionary_location, download_dictionaries_xcu, h1]
  simp only [Option.isNone_some, Bool.false_eq_true, false_and, if_false]
  cases hp : parse_dictionary_location doc (repos ++ language) language with
  | error e => rfl
  | ok pr =>
    rcases pr with ⟨o, ls⟩
    cases o <;> rfl

theorem fdl_eq_stage1_err_short (net : Net) (repos language : String)
    (e : TransportError)
    (h1 : net.xcu (repos ++ language ++ "/dictionaries.xcu") = .error e)
    (hlen : ¬ 2 < language.length) :
    find_dictionary_location net repos language =
      (.ok .noMetadata, [.netGetXcu (repos ++ language ++ "/dictionaries.xcu")]) := by
  simp only [find_dictionary_location, download_dictionaries_xcu, h1]
  simp only [Option.isNone_none, true_and, hlen, if_false]

theorem fdl_eq_stage2_doc (net : Net) (repos language : String)
    (e : TransportError) (doc : XmlNode)
    (h1 : net.xcu (repos ++ language ++ "/dictionaries.xcu") = .error e)
    (hlen : 2 < language.length)
    (h2 : net.xcu (repos ++ strTake language 2 ++ "/dictionaries.xcu") = .ok doc) :
    find_dictionary_location net repos language =
      ((match parse_dictionary_location doc (repos ++ strTake language 2) language with
        | .error e => .error e
        | .ok (none, _) =>
          .error (.ioError ("Cannot find hyphenation dictionary for language " ++
            language ++ "."))
        | .ok (some u, ls) => .ok (.found u ls)),
       [.netGetXcu (repos ++ language ++ "/dictionaries.xcu"),
        .netGetXcu (repos ++ strTake language 2 ++ "/dictionaries.xcu")]) := by
  simp only [find_dictionary_location, download_dictionaries_xcu, h1, h2]
  simp only [Option.isNone_none, true_and, hlen, if_true]
  cases hp : parse_dictionary_location doc (repos ++ strTake language 2) language with
  | error e => rfl
  | ok pr =>
    rcases pr with ⟨o, ls⟩
    cases o <;> rfl

theorem fdl_eq_stage2_err (net : Net) (repos language : String)
    (e e2 : TransportError)
    (h1 : net.xcu (repos ++ language ++ "/dictionaries.xcu") = .error e)
    (hlen : 2 < language.length)
    (h2 : net.xcu (repos ++ strTake language 2 ++ "/dictionaries.xcu") = .error e2) :
    find_dictionary_location net repos language =
      (.ok .noMetadata,
       [.netGetXcu (repos ++ language ++ "/dictionaries.xcu"),
        .netGetXcu (repos ++ strTake language 2 ++ "/dictionaries.xcu")]) := by
  simp only [find_dictionary_location, download_dictionaries_xcu, h1, h2]
  simp only [Option.isNone_none, true_and, hlen, if_true]
  rfl

theorem fdl_trace_no_blob (net : Net) (repos language : String) :
    countBlobGets (find_dictionary_location net repos language).2 = 0 := by
  cases hx1 : net.xcu (repos ++ language ++ "/dictionaries.xcu") with
  | ok doc =>
    rw [fdl_eq_stage1_doc net repos language doc hx1]
    rfl
  | error e =>
    by_cases hlen : 2 < language.length
    · cases hx2 : net.xcu (repos ++ strTake language 2 ++ "/dictionaries.xcu") with
      | ok doc =>
        rw [fdl_eq_stage2_doc net repos language e doc hx1 hlen hx2]
        rfl
      | error e2 =>
        rw [fdl_eq_stage2_err net repos language e e2 hx1 hlen hx2]
        rfl
    · rw [fdl_eq_stage1_err_short net repos language e hx1 hlen]
      rfl

theorem fdl_found_mem (net : Net) (repos language u : String) (ls : List String)
    (tF : Trace)
    (h : find_dictionary_location net repos language = (.ok (.found u ls), tF)) :
    language ∈ ls := by
  cases hx1 : net.xcu (repos ++ language ++ "/dictionaries.xcu") with
  | ok doc =>
    rw [fdl_eq_stage1_doc net repos language doc hx1] at h
    have h1 := congrArg Prod.fst h
    simp only at h1
    cases hp : parse_dictionary_location doc (repos ++ language) language with
    | error e => rw [hp] at h1; exact absurd h1 (by simp)
    | ok pr =>
      rcases pr with ⟨o, ls2⟩
      cases o with
      | none => rw [hp] at h1; exact absurd h1 (by simp)
      | some u2 =>
        rw [hp] at h1
        have h2 : Except.ok (ε := PyError) (FdlResult.found u2 ls2) =
            .ok (.found u ls) := h1
        simp only [Except.ok.injEq, FdlResult.found.injEq] at h2
        exact h2.2 ▸ parse_found_mem doc (repos ++ language) language u2 ls2 hp
  | error e =>
    by_cases hlen : 2 < language.length
    · cases hx2 : net.xcu (repos ++ strTake language 2 ++ "/dictionaries.xcu") with
      | ok doc =>
        rw [fdl_eq_stage2_doc net repos language e doc hx1 hlen hx2] at h
        have h1 := congrArg Prod.fst h
        simp only at h1
        cases hp : parse_dictionary_location doc (repos ++ strTake language 2)
            language with
        | error e3 => rw [hp] at h1; exact absurd h1 (by simp)
        | ok pr =>
          rcases pr with ⟨o, ls2⟩
          cases o with
          | none => rw [hp] at h1; exact absurd h1 (by simp)
          | some u2 =>
            rw [hp] at h1
            have h2 : Except.ok (ε := PyError) (FdlResult.found u2 ls2) =
                .ok (.found u ls) := h1
            simp only [Except.ok.injEq, FdlResult.found.injEq] at h2
            exact h2.2 ▸
              parse_found_mem doc (repos ++ strTake language 2) language u2 ls2 hp
      | error e2 =>
        rw [fdl_eq_stage2_err net repos language e e2 hx1 hlen hx2] at h
        have h1 := congrArg Prod.fst h
        simp at h1
    · cases hx2 : net.xcu (repos ++ strTake language 2 ++ "/dictionaries.xcu") with
      | ok doc =>
        rw [fdl_eq_stage1_err_short net repos language e hx1 hlen] at h
        have h1 := congrArg Prod.fst h
        simp at h1
      | error e2 =>
        rw [fdl_eq_stage1_err_short net repos language e hx1 hlen] at h
        have h1 := congrArg Prod.fst h
        simp at h1

theorem installDownload_ok_char (net : Net) (fs : Fs) (language : String)
    (directory : Option String) (dict_url : String) (locales : List String)
    (t0 : Trace) (fs2 : Fs) (p : String) (t : Trace)
    (hmem : language ∈ locales)
    (h : installDownload net fs language directory dict_url locales t0 =
      (.ok (fs2, p), t)) :
    ∃ d2 url,
      fs2.registry = some d2 ∧
      assocLookup d2 language =
        some { file := "hyph_" ++ language ++ ".dic", url := url } ∧
      p = pathJoin (pyOrDefault directory DEFAULT_DICT_PATH)
        ("hyph_" ++ language ++ ".dic") ∧
      countBlobGets t = countBlobGets t0 + 1 := by
  cases hb : net.blob dict_url with
  | error e =>
    simp only [installDownload, hb] at h
    exact absurd (congrArg Prod.fst h) (by simp)
  | ok content =>
    simp only [installDownload, hb, Dictionaries.add, Dictionaries.make,
      getData_fresh] at h
    have h1 := congrArg Prod.fst h
    have h2 := congrArg Prod.snd h
    simp only [Except.ok.injEq, Prod.mk.injEq] at h1 h2
    obtain ⟨hfs, hp⟩ := h1
    subst hfs
    subst hp
    subst h2
    refine ⟨_, dict_url, rfl, ?_, rfl, ?_⟩
    · exact assocLookup_foldl_set_mem _ language locales _ hmem
    · simp [countBlobGets, List.countP_append, Effect.isBlobGet,
        List.countP_cons]

theorem install_ok_char (net : Net) (fs : Fs) (language : String)
    (directory repos : Option String) (ud : Bool) (fs2 : Fs) (p : String)
    (t : Trace)
    (h : install net fs language directory repos ud = (.ok (fs2, p), t)) :
    ∃ d2 url,
      fs2.registry = some d2 ∧
      assocLookup d2 language =
        some { file := "hyph_" ++ language ++ ".dic", url := url } ∧
      p = pathJoin (pyOrDefault directory DEFAULT_DICT_PATH)
        ("hyph_" ++ language ++ ".dic") ∧
      countBlobGets t = 1 := by
  cases ud with
  | false =>
    simp only [install, Bool.false_eq_true, if_false] at h
    rcases installDownload_ok_char net fs language directory _ [language] [] fs2
        p t (List.mem_singleton.mpr rfl) h with ⟨d2, url, hr, hl, hp, hc⟩
    exact ⟨d2, url, hr, hl, hp, by simpa [countBlobGets] using hc⟩
  | true =>
    simp only [install, if_true] at h
    rcases hfd0 : find_dictionary_location net
        (pyOrDefault repos DEFAULT_REPOSITORY) language with ⟨res, tF⟩
    rw [hfd0] at h
    have htF : countBlobGets tF = 0 := by
      have := fdl_trace_no_blob net (pyOrDefault repos DEFAULT_REPOSITORY)
        language
      rw [hfd0] at this
      exact this
    cases res with
    | error e =>
      exact absurd (congrArg Prod.fst h) (by simp)
    | ok fr =>
      cases fr with
      | noMetadata =>
        exact absurd (congrArg Prod.fst h) (by simp)
      | found u ls =>
        by_cases hu : u = ""
        · replace h : installDownload net fs language directory
              (pyOrDefault repos DEFAULT_REPOSITORY ++ "hyph_dict_" ++
                language ++ ".dic") [language] tF = (.ok (fs2, p), t) := by
            rw [← h]
            exact (if_neg (by simp [pyStrTruthy, hu])).symm
          rcases installDownload_ok_char net fs language directory _ [language]
              tF fs2 p t (List.mem_singleton.mpr rfl) h with
            ⟨d2, url, hr, hl, hp, hc⟩
          exact ⟨d2, url, hr, hl, hp, by rw [hc, htF]⟩
        · have hmem : language ∈ ls :=
            fdl_found_mem net (pyOrDefault repos DEFAULT_REPOSITORY) language
              u ls tF hfd0
          replace h : installDownload net fs language directory u ls tF =
              (.ok (fs2, p), t) := by
            rw [← h]
            exact (if_pos (by simp [pyStrTruthy, hu])).symm
          rcases installDownload_ok_char net fs language directory u ls tF fs2
              p t hmem h with ⟨d2, url, hr, hl, hp, hc⟩
          exact ⟨d2, url, hr, hl, hp, by rw [hc, htF]⟩

theorem processProps_append :
    ∀ (l1 l2 : List XmlNode) (acc : ParseAcc),
      processProps acc (l1 ++ l2) =
        match processProps acc l1 with
        | .error e => .error e
        | .ok a => processProps a l2 := by
  intro l1
  induction l1 with
  | nil => intro l2 acc; rfl
  | cons p ps ih =>
    intro l2 acc
    simp only [List.cons_append, processProps]
    cases ha : processAttrs p acc p.attrs with
    | error e => simp only [ha]
    | ok acc2 =>
      simp only [ha]
      exact ih l2 acc2

theorem ian_installed (net : Net) (fs : Fs) (language : String)
    (directory : Option String) (e : Entry)
    (h : assocLookup (fs.registry.getD []) language = some e) :
    install_if_necessary net fs language directory =
      (.ok (fs, pathJoin (pyOrDefault directory DEFAULT_DICT_PATH) e.file),
       []) := by
  simp only [install_if_necessary, make_eq, Dictionaries.is_installed,
    getData_fresh, h, Option.isSome_some, if_true, Dictionaries.filepath,
    getData_cached]

/-!
## The claims
-/

/-- C1: the claim says that with `use_description=true` and no descriptor
obtainable for either the full or the truncated code, `install` builds the
guessed URL `repos + "hyph_dict_" + language + ".dic"` with
`locales = [language]`, downloads it and returns the `Registry.add` path
without raising first.  The code instead raises `TypeError` at
`dict_url, locales = find_dictionary_location(repos, language)`, because
that callee returns a bare `None` (line 186) which cannot be unpacked: on
`netNoMeta` every descriptor fetch fails while the guessed URL is
downloadable, yet `install` errors before requesting it; the same network
with `use_description=false` performs exactly the install the claim
describes. -/
theorem C1_install_raises_before_guess :
    install netNoMeta fsEmpty "en_US" (some "/d") none true =
      (.error (.typeError "cannot unpack non-iterable NoneType object"),
       [.netGetXcu (DEFAULT_REPOSITORY ++ "en_US" ++ "/dictionaries.xcu"),
        .netGetXcu (DEFAULT_REPOSITORY ++ "en" ++ "/dictionaries.xcu")]) ∧
    netNoMeta.blob (DEFAULT_REPOSITORY ++ "hyph_dict_" ++ "en_US" ++ ".dic") =
      .ok [7, 7] ∧
    install netNoMeta fsEmpty "en_US" (some "/d") none false =
      (.ok ({ registry := some [("en_US",
                { file := "hyph_en_US.dic",
                  url := DEFAULT_REPOSITORY ++ "hyph_dict_" ++ "en_US" ++
                    ".dic" })],
              dicts := [("hyph_en_US.dic", [7, 7])] },
            "/d/hyph_en_US.dic"),
       [.netGetBlob (DEFAULT_REPOSITORY ++ "hyph_dict_" ++ "en_US" ++ ".dic"),
        .writeFile "hyph_en_US.dic",
        .saveReg [("en_US",
          { file := "hyph_en_US.dic",
            url := DEFAULT_REPOSITORY ++ "hyph_dict_" ++ "en_US" ++
              ".dic" })]]) :=
  ⟨rfl, rfl, rfl⟩

/-- C2: `remove(locale)` on a locale present in the registry drops every
locale bound to the same file from the mapping, persists the pruned
mapping, and only afterwards deletes the physical file, at most once and
only if it exists; afterwards no entry references the file; on an absent
locale it is a no-op. -/
theorem C2_remove_shared_file (dir : String) (fs : Fs) (language : String) :
    (assocLookup (fs.registry.getD []) language = none →
      (Dictionaries.mk dir none).remove fs language =
        (Dictionaries.mk dir (some (fs.registry.getD [])), fs, [])) ∧
    (∀ props, assocLookup (fs.registry.getD []) language = some props →
      ((fs.registry.getD []).map Prod.fst).Nodup →
      ((Dictionaries.mk dir none).remove fs language).2.1.registry =
        some ((fs.registry.getD []).filter
          (fun kv => kv.2.file ≠ props.file)) ∧
      (∀ kv ∈ (((Dictionaries.mk dir none).remove fs
          language).2.1.registry.getD []), kv.2.file ≠ props.file) ∧
      ((Dictionaries.mk dir none).remove fs language).2.1.dicts =
        fs.dicts.filter (fun kv => kv.1 ≠ props.file) ∧
      ((Dictionaries.mk dir none).remove fs language).2.2 =
        .saveReg ((fs.registry.getD []).filter
            (fun kv => kv.2.file ≠ props.file)) ::
          (if fs.dicts.any (fun kv => kv.1 = props.file) then
            [.deleteFile props.file]
          else [])) := by
  constructor
  · intro h
    simp [Dictionaries.remove, getData_fresh, h]
  · intro props h hnd
    have hd := pop_languages_eq_filter (fs.registry.getD []) props.file hnd
    cases hex : fs.dicts.any (fun kv => kv.1 = props.file) with
    | true =>
      simp only [Dictionaries.remove, getData_fresh, h, hd, hex, if_true]
      refine ⟨by trivial, ?_, by trivial, by trivial⟩
      intro kv hkv
      simp only [Option.getD_some] at hkv
      have := (List.mem_filter.mp hkv).2
      simpa using this
    | false =>
      simp only [Dictionaries.remove, getData_fresh, h, hd, hex,
        Bool.false_eq_true, if_false]
      refine ⟨by trivial, ?_, ?_, by trivial⟩
      · intro kv hkv
        simp only [Option.getD_some] at hkv
        have := (List.mem_filter.mp hkv).2
        simpa using this
      · refine (List.filter_eq_self.mpr ?_).symm
        intro kv hkv
        have := List.any_eq_false.mp hex kv hkv
        simpa using this

/-- C2 witness: the shared-file example of §8 of the spec (with an extra
unrelated locale `fr_FR`): removing `en_GB` drops both `en_US` and `en_GB`,
persists the pruned mapping first, then deletes `hyph_en_US.dic` once. -/
theorem C2_remove_shared_file_witness :
    ((Dictionaries.mk "/d" none).remove fsShared "en_GB").2.1.registry =
      some [("fr_FR", { file := "hyph_fr_FR.dic", url := "v" })] ∧
    ((Dictionaries.mk "/d" none).remove fsShared "en_GB").2.1.dicts =
      [("hyph_fr_FR.dic", [2])] ∧
    ((Dictionaries.mk "/d" none).remove fsShared "en_GB").2.2 =
      [.saveReg [("fr_FR", { file := "hyph_fr_FR.dic", url := "v" })],
       .deleteFile "hyph_en_US.dic"] := by
  have h := (C2_remove_shared_file "/d" fsShared "en_GB").2
    { file := "hyph_en_US.dic", url := "u" } rfl (by decide)
  refine ⟨?_, ?_, ?_⟩
  · rw [h.1]; rfl
  · rw [h.2.2.1]; rfl
  · rw [h.2.2.2]; rfl

/-- C3: the resolver fetches the descriptor at `repos + language` first;
it retries at `repos + language[:2]` (parsing against the original
`language`) exactly when the first fetch yielded no document and the
language code has more than two characters; a document that parses with no
matching record raises the `IOError` rather than falling through to the
guess, and `noMetadata` (the bare `None`) arises only when no document was
obtainable at all. -/
theorem C3_resolver_two_stage (net : Net) (repos language : String) :
    (∀ doc, net.xcu (repos ++ language ++ "/dictionaries.xcu") = .ok doc →
      find_dictionary_location net repos language =
        ((match parse_dictionary_location doc (repos ++ language) language with
          | .error e => .error e
          | .ok (none, _) =>
            .error (.ioError
              ("Cannot find hyphenation dictionary for language " ++
                language ++ "."))
          | .ok (some u, ls) => .ok (.found u ls)),
         [.netGetXcu (repos ++ language ++ "/dictionaries.xcu")])) ∧
    (∀ e, net.xcu (repos ++ language ++ "/dictionaries.xcu") = .error e →
      ¬ 2 < language.length →
      find_dictionary_location net repos language =
        (.ok .noMetadata,
         [.netGetXcu (repos ++ language ++ "/dictionaries.xcu")])) ∧
    (∀ e doc, net.xcu (repos ++ language ++ "/dictionaries.xcu") = .error e →
      2 < language.length →
      net.xcu (repos ++ strTake language 2 ++ "/dictionaries.xcu") = .ok doc →
      find_dictionary_location net repos language =
        ((match parse_dictionary_location doc (repos ++ strTake language 2)
            language with
          | .error e => .error e
          | .ok (none, _) =>
            .error (.ioError
              ("Cannot find hyphenation dictionary for language " ++
                language ++ "."))
          | .ok (some u, ls) => .ok (.found u ls)),
         [.netGetXcu (repos ++ language ++ "/dictionaries.xcu"),
          .netGetXcu (repos ++ strTake language 2 ++ "/dictionaries.xcu")])) ∧
    (∀ e e2, net.xcu (repos ++ language ++ "/dictionaries.xcu") = .error e →
      2 < language.length →
      net.xcu (repos ++ strTake language 2 ++ "/dictionaries.xcu") =
        .error e2 →
      find_dictionary_location net repos language =
        (.ok .noMetadata,
         [.netGetXcu (repos ++ language ++ "/dictionaries.xcu"),
          .netGetXcu (repos ++ strTake language 2 ++ "/dictionaries.xcu")])) :=
  ⟨fun doc h1 => fdl_eq_stage1_doc net repos language doc h1,
   fun e h1 hlen => fdl_eq_stage1_err_short net repos language e h1 hlen,
   fun e doc h1 hlen h2 => fdl_eq_stage2_doc net repos language e doc h1 hlen h2,
   fun e e2 h1 hlen h2 => fdl_eq_stage2_err net repos language e e2 h1 hlen h2⟩

/-- C3 witness: the `pt_BR` example of §8: no descriptor at `repo/pt_BR`,
a `pt` descriptor with no `pt_BR` record, so the result is the hard
"no dictionary" error and both URLs were queried in order. -/
theorem C3_resolver_two_stage_witness :
    find_dictionary_location netPt "http://repo/" "pt_BR" =
      (.error (.ioError
        "Cannot find hyphenation dictionary for language pt_BR."),
       [.netGetXcu "http://repo/pt_BR/dictionaries.xcu",
        .netGetXcu "http://repo/pt/dictionaries.xcu"]) := by
  have h := (C3_resolver_two_stage netPt "http://repo/" "pt_BR").2.2.1
    (.httpError 404) sampleRootPt rfl (by decide) rfl
  rw [h]
  rfl

/-- C4: whenever the fallible source parser returns, its result is exactly
that of the specification parser: the first record in document order that
has a location string and whose normalized locale list contains the
requested language yields
`(origin_url + "/" + location[9:], that locale list)` (first
whitespace-separated location token only); with no matching record the
result is `(None, [])`. -/
theorem C4_parse_refines_spec (root : XmlNode) (origin_url language : String)
    (r : Option String × List String)
    (h : parse_dictionary_location root origin_url language = .ok r) :
    parseSpecC4 root origin_url language = r :=
  parseGo_ok_spec origin_url language (root.iterTag "node") r h

/-- C4 witness: on the sample descriptor both parsers agree, the hyphenated
locales are normalized, the nine-character `%origin%/` prefix is stripped
and only the first location token is used. -/
theorem C4_parse_refines_spec_witness :
    parseSpecC4 sampleRoot "http://repo/en_US" "en_US" =
      (some "http://repo/en_US/hyph_en_US.dic", ["en_US", "en_GB"]) :=
  C4_parse_refines_spec sampleRoot "http://repo/en_US" "en_US"
    (some "http://repo/en_US/hyph_en_US.dic", ["en_US", "en_GB"]) rfl

/-- C5: the descriptor fetch appends the fixed filename
`dictionaries.xcu` to the base URL, and every transport-level failure of
the `GET` (unreachable host, HTTP error such as 404, timeout) yields
`None` instead of propagating, while a successful `GET` yields the
document. -/
theorem C5_fetch_soft_failure (net : Net) (base : String) :
    (∀ e : TransportError, net.xcu (base ++ "/dictionaries.xcu") = .error e →
      download_dictionaries_xcu net base =
        (none, [.netGetXcu (base ++ "/dictionaries.xcu")])) ∧
    (∀ doc : XmlNode, net.xcu (base ++ "/dictionaries.xcu") = .ok doc →
      download_dictionaries_xcu net base =
        (some doc, [.netGetXcu (base ++ "/dictionaries.xcu")])) := by
  constructor
  · intro e he
    simp [download_dictionaries_xcu, he]
  · intro doc hd
    simp [download_dictionaries_xcu, hd]

/-- C5 witness: on the always-unreachable network the fetch returns `None`
after querying exactly `base + "/dictionaries.xcu"`. -/
theorem C5_fetch_soft_failure_witness :
    download_dictionaries_xcu netOffline "http://repo/en" =
      (none, [.netGetXcu ("http://repo/en" ++ "/dictionaries.xcu")]) :=
  (C5_fetch_soft_failure netOffline "http://repo/en").1 .unreachable rfl

/-- C6: for a locale already present in the registry,
`install_if_necessary` returns the registered path with an empty effect
trace (no network activity at all); and whenever a call succeeds, it
performed at most one content download and an immediately repeated call
succeeds with the identical path, the same state and no effects. -/
theorem C6_install_if_necessary_idempotent (net : Net) (fs : Fs)
    (language : String) (directory : Option String) :
    (∀ e, assocLookup (fs.registry.getD []) language = some e →
      install_if_necessary net fs language directory =
        (.ok (fs, pathJoin (pyOrDefault directory DEFAULT_DICT_PATH) e.file),
         [])) ∧
    (∀ fs1 p t,
      install_if_necessary net fs language directory = (.ok (fs1, p), t) →
      countBlobGets t ≤ 1 ∧
      install_if_necessary net fs1 language directory =
        (.ok (fs1, p), [])) := by
  constructor
  · intro e h
    exact ian_installed net fs language directory e h
  · intro fs1 p t h
    cases hl : assocLookup (fs.registry.getD []) language with
    | some e =>
      rw [ian_installed net fs language directory e hl] at h
      have h1 := congrArg Prod.fst h
      have h2 := congrArg Prod.snd h
      simp only [Except.ok.injEq, Prod.mk.injEq] at h1 h2
      obtain ⟨hfs, hp⟩ := h1
      subst hfs
      subst hp
      subst h2
      exact ⟨by simp [countBlobGets],
        ian_installed net fs language directory e hl⟩
    | none =>
      rcases hins : install net fs language directory none true with ⟨res, tI⟩
      simp only [install_if_necessary, make_eq, Dictionaries.is_installed,
        getData_fresh, hl, Option.isSome_none, Bool.false_eq_true, if_false,
        hins] at h
      cases res with
      | error e =>
        exact absurd (congrArg Prod.fst h) (by simp)
      | ok pr =>
        rcases pr with ⟨fs2, p2⟩
        rcases install_ok_char net fs language directory none true fs2 p2 tI
            hins with ⟨d2, url, hreg, hlook, hp2, hcount⟩
        have hfp : ((Dictionaries.mk (pyOrDefault directory DEFAULT_DICT_PATH)
            none).filepath fs2 language).2 =
            .ok (pathJoin (pyOrDefault directory DEFAULT_DICT_PATH)
              ("hyph_" ++ language ++ ".dic")) := by
          simp only [Dictionaries.filepath, getData_fresh, hreg,
            Option.getD_some, hlook]
        replace h :
            (match ((Dictionaries.mk (pyOrDefault directory DEFAULT_DICT_PATH)
                none).filepath fs2 language).2 with
              | Except.error e => ((Except.error e :
                  Except PyError (Fs × String)), tI)
              | Except.ok pp => (Except.ok (fs2, pp), tI)) =
              (Except.ok (fs1, p), t) := h
        rw [hfp] at h
        replace h : ((Except.ok (fs2, pathJoin
            (pyOrDefault directory DEFAULT_DICT_PATH)
            ("hyph_" ++ language ++ ".dic")) :
              Except PyError (Fs × String)), tI) =
            (Except.ok (fs1, p), t) := h
        have h1 := congrArg Prod.fst h
        have h2 := congrArg Prod.snd h
        simp only [Except.ok.injEq, Prod.mk.injEq] at h1 h2
        obtain ⟨hfs, hp⟩ := h1
        subst hfs
        subst hp
        subst h2
        have hl2 : assocLookup (fs2.registry.getD []) language =
            some { file := "hyph_" ++ language ++ ".dic", url := url } := by
          rw [hreg, Option.getD_some]
          exact hlook
        refine ⟨le_of_eq hcount, ?_⟩
        exact ian_installed net fs2 language directory
          { file := "hyph_" ++ language ++ ".dic", url := url } hl2

/-- C6 witness: a full successful run against `netC6` on an empty
directory downloads once; the repeated call returns the identical path
with no effects and unchanged state. -/
theorem C6_install_if_necessary_idempotent_witness :
    countBlobGets traceC6 ≤ 1 ∧
    install_if_necessary netC6 fsC6 "en_US" (some "/d") =
      (.ok (fsC6, "/d/hyph_en_US.dic"), []) :=
  (C6_install_if_necessary_idempotent netC6 fsEmpty "en_US" (some "/d")).2
    fsC6 "/d/hyph_en_US.dic" traceC6 rfl

/-- C7: `filepath(locale)` on a locale absent from the registry fails with
the `KeyError` (the `LocaleNotRegistered` failure of the error taxonomy)
instead of returning a path. -/
theorem C7_filepath_absent_keyError (dir : String) (fs : Fs)
    (language : String)
    (h : assocLookup (fs.registry.getD []) language = none) :
    ((Dictionaries.mk dir none).filepath fs language).2 =
      .error (.keyError language) := by
  simp [Dictionaries.filepath, getData_fresh, h]

/-- C7 witness: an empty directory has no locale registered. -/
theorem C7_filepath_absent_keyError_witness :
    ((Dictionaries.mk "/d" none).filepath fsEmpty "en_US").2 =
      .error (.keyError "en_US") :=
  C7_filepath_absent_keyError "/d" fsEmpty "en_US" rfl

/-- C8: when a record carries the property tagged `locales` more than once,
the parser keeps only the most recently assigned (last) value: whatever
the earlier properties were, a final single-attribute `locales` property
with child text `t` forces the extracted locale list to be the parse of
`t`. -/
theorem C8_last_locales_wins (node : XmlNode) (ps : List XmlNode)
    (ptag k v : String) (ptext : Option String) (child : XmlNode)
    (crest : List XmlNode) (t : String)
    (hchildren : node.children =
      ps ++ [XmlNode.mk ptag [(k, v)] ptext (child :: crest)])
    (hv : pyLower v = "locales")
    (htext : child.text = some t)
    (_hmulti : ∃ q ∈ ps, ∃ nv ∈ q.attrs, pyLower nv.2 = "locales")
    (acc : ParseAcc) (hok : processNode node = .ok acc) :
    acc.locales = pySplitWs (replaceChar '-' '_' t) := by
  unfold processNode at hok
  rw [hchildren, processProps_append] at hok
  cases hps : processProps { locales := [], dict_location := none } ps with
  | error e =>
    rw [hps] at hok
    exact absurd hok (by simp)
  | ok acc1 =>
    rw [hps] at hok
    have hv2 : ¬ pyLower v = "locations" := by
      rw [hv]
      decide
    simp only [processProps, processAttrs, XmlNode.attrs, processAttr,
      hv2, hv, if_true, if_false, localesFromProp, XmlNode.children,
      htext] at hok
    have hok2 : Except.ok (ε := PyError)
        ({ acc1 with locales := pySplitWs (replaceChar '-' '_' t) }) =
          .ok acc := hok
    simp only [Except.ok.injEq] at hok2
    rw [← hok2]

/-- C8 witness: in `sampleMultiNode` the property tagged `locales` occurs
twice (`xx-YY` early, `en-US en-GB` last); the extracted record keeps the
last value. -/
theorem C8_last_locales_wins_witness :
    (ParseAcc.mk ["en_US", "en_GB"]
        (some "%origin%/hyph_en_US.dic")).locales =
      pySplitWs (replaceChar '-' '_' "en-US en-GB") :=
  C8_last_locales_wins sampleMultiNode
    [XmlNode.mk "prop" [("oor:name", "Locales")] none
      [XmlNode.mk "value" [] (some "xx-YY") []],
     XmlNode.mk "prop" [("oor:name", "Locations")] none
      [XmlNode.mk "value" [] (some "%origin%/hyph_en_US.dic") []]]
    "prop" "oor:name" "Locales" none
    (XmlNode.mk "value" [] (some "en-US en-GB") []) [] "en-US en-GB"
    rfl rfl rfl (by decide)
    (ParseAcc.mk ["en_US", "en_GB"] (some "%origin%/hyph_en_US.dic")) rfl

/-- C9: a successful `install` always leaves the registry containing an
entry for the requested language itself, bound to `hyph_<language>.dic`,
so the `filepath(language)` lookup that `install_if_necessary` performs
after a successful install returns the very path `install` returned and
cannot fail. -/
theorem C9_install_registers_language (net : Net) (fs : Fs)
    (language : String) (directory repos : Option String) (ud : Bool)
    (fs2 : Fs) (p : String) (t : Trace)
    (h : install net fs language directory repos ud = (.ok (fs2, p), t)) :
    ∃ d2 url,
      fs2.registry = some d2 ∧
      assocLookup d2 language =
        some { file := "hyph_" ++ language ++ ".dic", url := url } ∧
      ((Dictionaries.mk (pyOrDefault directory DEFAULT_DICT_PATH)
          none).filepath fs2 language).2 = .ok p := by
  rcases install_ok_char net fs language directory repos ud fs2 p t h with
    ⟨d2, url, hreg, hlook, hp, _⟩
  refine ⟨d2, url, hreg, hlook, ?_⟩
  subst hp
  simp only [Dictionaries.filepath, getData_fresh, hreg, Option.getD_some,
    hlook]

/-- C9 witness: a concrete successful install (guess path, metadata
disabled) registers `en_US` and `filepath` resolves it. -/
theorem C9_install_registers_language_witness :
    ∃ d2 url,
      fsC9.registry = some d2 ∧
      assocLookup d2 "en_US" =
        some { file := "hyph_" ++ "en_US" ++ ".dic", url := url } ∧
      ((Dictionaries.mk (pyOrDefault (some "/d") DEFAULT_DICT_PATH)
          none).filepath fsC9 "en_US").2 = .ok "/d/hyph_en_US.dic" :=
  C9_install_registers_language netNoMeta fsEmpty "en_US" (some "/d") none
    false fsC9 "/d/hyph_en_US.dic" traceC9 rfl

/-- C10: the parser is not total over untrusted metadata: on the
well-formed document `sampleRootBad`, whose hyphenation record has a
`Locations` property with a child element carrying no text, it raises
`AttributeError` (the unguarded `.text.split()` dereference) instead of
skipping the record or returning `(None, [])`. -/
theorem C10_parse_not_total :
    parse_dictionary_location sampleRootBad "http://repo/xx" "xx_XX" =
      .error .attributeError :=
  rfl

end PyHyphen
